import Mathlib

/-!
Verification of the Gmail-filter classification engine (src/Code.js).

The JavaScript source works over raw message contents with line-anchored
(`m` flag), case-insensitive (`i` flag) regular expressions, and applies
labels to threads through the GmailApp API.  The shallow embedding below
models:

* a string as a list of characters (`Str`), so that every operation is a
  structural recursion the kernel can evaluate;
* a message's raw content as the list of its lines (the `m` flag anchors
  every pattern at a line start, and no pattern can cross a newline);
* each regular expression of the source as an executable matching function
  whose semantics is spelled out case by case (greedy character classes,
  backtracking where it can matter, first-matching-line result as returned
  by `String.prototype.match` without the `g` flag);
* the GmailApp label store as the list of full label names created so far
  (a `GmailLabel` is identified by its full name, which is what both
  `getName()`-based deduplication and `getUserLabelByName` use);
* the thread mutations and the `console.error`/`console.warn` calls that
  the claims refer to as an explicit list of `Effect`s (`console.info`
  calls are not modelled: no claim mentions them).
-/

/-- A JavaScript string, modelled as its list of characters. -/
abbrev Str := List Char

/-- ASCII lower-casing of one character, the case folding performed by the
`i` regex flag on the ASCII patterns of the source. -/
def lowerChar (c : Char) : Char :=
  if 65 ≤ c.toNat ∧ c.toNat ≤ 90 then Char.ofNat (c.toNat + 32) else c

/-- Strip `p` (given lower-case) from the front of `s`, comparing
case-insensitively; returns the remainder on success. -/
def stripPrefixCI : Str → Str → Option Str
  | [], rest => some rest
  | _, [] => none
  | p :: ps, c :: cs => if lowerChar c = p then stripPrefixCI ps cs else none

/-- Does `s` start (case-insensitively) with the lower-case pattern `p`? -/
def startsWithCI (p s : Str) : Bool :=
  (stripPrefixCI p s).isSome

/-- Does `s` contain (case-insensitively) the lower-case pattern `p`?
Models `.*p.*` inside a case-insensitive regex. -/
def containsSubCI (p : Str) : Str → Bool
  | [] => startsWithCI p []
  | c :: cs => startsWithCI p (c :: cs) || containsSubCI p cs

/-- Case-sensitive counterpart of `stripPrefixCI`, used for
`String.prototype.includes`. -/
def stripPrefixCS : Str → Str → Option Str
  | [], rest => some rest
  | _, [] => none
  | p :: ps, c :: cs => if c = p then stripPrefixCS ps cs else none

/-- Case-sensitive substring test: `url.includes(key)` of the source. -/
def containsSub (p : Str) : Str → Bool
  | [] => (stripPrefixCS p []).isSome
  | c :: cs => (stripPrefixCS p (c :: cs)).isSome || containsSub p cs

/-- Strip a (lower-case) suffix case-insensitively; returns the front. -/
def stripSuffixCI (suf s : Str) : Option Str :=
  (stripPrefixCI suf.reverse s.reverse).map List.reverse

/-- Break `s` at the first occurrence of `ch`: `some (before, after)`,
neither part containing that occurrence.  This is how a regex fragment
of the shape just-before-a-literal, like a character class excluding
`ch` followed by the literal `ch`, consumes its input. -/
def splitFirst (ch : Char) : Str → Option (Str × Str)
  | [] => none
  | c :: cs =>
    if c = ch then some ([], cs)
    else (splitFirst ch cs).map (fun p => (c :: p.1, p.2))

/-- The whitespace class of `String.prototype.trim` restricted to the
ASCII whitespace that can occur in mail headers. -/
def isWs (c : Char) : Bool :=
  c = ' ' || c = '\t' || c = '\n' || c = '\r'

/-- JavaScript `String.prototype.trim`. -/
def trimStr (s : Str) : Str :=
  ((s.dropWhile isWs).reverse.dropWhile isWs).reverse

/-- JavaScript `String.prototype.split` with a one-character separator. -/
def splitOnCharAux (ch : Char) : Str → Str → List Str
  | [], acc => [acc.reverse]
  | c :: cs, acc =>
    if c = ch then acc.reverse :: splitOnCharAux ch cs []
    else splitOnCharAux ch cs (c :: acc)

/-- JavaScript `s.split(ch)` for a single-character separator `ch`. -/
def splitOnChar (ch : Char) (s : Str) : List Str :=
  splitOnCharAux ch s []

/-- JavaScript `s.replace(/_/g, ' ')`. -/
def underscoreToSpace (s : Str) : Str :=
  s.map (fun c => if c = '_' then ' ' else c)

/-- A Gmail message: its raw content as a list of lines, plus the subject
used by the log messages the claims mention. -/
structure GmailMessage where
  rawContent : List Str
  subject : Str

/-- A Gmail thread: an identifier and its messages. -/
structure GmailThread where
  id : Str
  messages : List GmailMessage

/-- The observable actions of one batch run that the claims talk about:
thread mutations and the error/warning logs.  (`console.info` calls are
not modelled.) -/
inductive Effect where
  | logError : Str → Effect
  | logWarn : Str → Effect
  | addLabel : Str → Str → Effect
  | markImportant : Str → Effect
  | markUnimportant : Str → Effect
  | moveToInbox : Str → Effect
  | moveToArchive : Str → Effect
deriving DecidableEq

/-- Scan the lines of a raw content in order and return the first line's
match result: the semantics of `String.prototype.match` (no `g` flag) for
a line-anchored (`m` flag) pattern. -/
def firstLineMatch (f : Str → Option α) (lines : List Str) : Option α :=
  lines.findSome? f

/-! ## AbstractGMailFilter (src/Code.js lines 4-114) -/

/-- The path separator of the label hierarchy. -/
def slash : Str := "/".data

/-- Sanitization in `_getOrCreateLabel` (line 53):
`labelStr.replace(/\(|\)/g, "_")`. -/
def sanitizeLabel (s : Str) : Str :=
  s.map (fun c => if c = '(' ∨ c = ')' then '_' else c)

/-- `AbstractGMailFilter._uniqLabels` (lines 40-44), written with the
index-carrying recursion that JavaScript's `Array.prototype.filter`
callback `(current, index, self)` performs: an element `current` of the
original array `labels` is kept exactly when it is non-null and
`labels.findIndex(label => label && label.getName() === current.getName())`
equals its own index.  A label is identified by its full name, so the
element type is `Option Str`; the result keeps the surviving names. -/
def uniqAux (labels : List (Option Str)) : Nat → List (Option Str) → List Str
  | _, [] => []
  | i, none :: rest => uniqAux labels (i + 1) rest
  | i, some name :: rest =>
    if List.findIdx? (fun l => decide (l = some name)) labels = some i then
      name :: uniqAux labels (i + 1) rest
    else
      uniqAux labels (i + 1) rest

/-- `AbstractGMailFilter._uniqLabels` on the full array. -/
def AbstractGMailFilter.uniqLabels (labels : List (Option Str)) : List Str :=
  uniqAux labels 0 labels

/-- `AbstractGMailFilter._getOrCreateLabel` (lines 52-64).  The GmailApp
label store is the list of full names created so far; `getUserLabelByName`
finds a previously created name, `createLabel` prepends the new one.
Returns the label (its full name) and the updated store. -/
def AbstractGMailFilter.getOrCreateLabel (store : List Str) (labelStr : Str) :
    Str × List Str :=
  let s := sanitizeLabel labelStr
  if s ∈ store then (s, store) else (s, s :: store)

/-- One step of the `reduce` in `_getOrCreateLabelHierarchy` (lines 76-82):
with a current label, get or create `currentLabel.getName() ++ "/" ++ seg`,
otherwise get or create `seg` itself. -/
def AbstractGMailFilter.hierStep :
    Option Str × List Str → Str → Option Str × List Str
  | (some cur, store), seg =>
    let r := AbstractGMailFilter.getOrCreateLabel store (cur ++ slash ++ seg)
    (some r.1, r.2)
  | (none, store), seg =>
    let r := AbstractGMailFilter.getOrCreateLabel store seg
    (some r.1, r.2)

/-- `AbstractGMailFilter._getOrCreateLabelHierarchy` (lines 74-83) at the
default separator `"/"`, the only separator the source ever uses:
split the path and fold `hierStep` from `null`. -/
def AbstractGMailFilter.getOrCreateLabelHierarchy
    (store : List Str) (labelName : Str) : Option Str × List Str :=
  (splitOnChar '/' labelName).foldl AbstractGMailFilter.hierStep (none, store)

/-- The full name of the label `_getOrCreateLabelHierarchy` returns for a
path (label identity is the full name, independent of the store). -/
def hierarchyName (labelName : Str) : Str :=
  (AbstractGMailFilter.getOrCreateLabelHierarchy [] labelName).1.getD []

/-- The body of the per-thread callback of `AbstractGMailFilter.run`
(lines 92-111), given the per-message label names `labels0` computed by
`findLabels`: deduplicate; if empty, log an error naming the thread and
stop; otherwise add every label, then mark/move the thread according to
`getMessages().some(isImportantMessage)`. -/
def AbstractGMailFilter.processThread (labels0 : List (Option Str))
    (imp : GmailMessage → Bool) (t : GmailThread) : List Effect :=
  let labels := AbstractGMailFilter.uniqLabels labels0
  if labels = [] then
    [Effect.logError t.id]
  else
    labels.map (Effect.addLabel t.id) ++
      (if t.messages.any imp then
        [Effect.markImportant t.id, Effect.moveToInbox t.id]
      else
        [Effect.markUnimportant t.id, Effect.moveToArchive t.id])

/-- `AbstractGMailFilter.run` (lines 90-113) over the threads returned by
the search.  `fl` is the subclass's `findLabels`, returning the label
names per message or the exception it throws; a thrown exception
propagates out of the `map` callback, so the effects of the threads
already handled stay performed and the remaining threads are not
processed.  Returns the performed effects and the escaped exception. -/
def AbstractGMailFilter.run (fl : GmailThread → Except Str (List (Option Str)))
    (imp : GmailMessage → Bool) : List GmailThread → List Effect × Option Str
  | [] => ([], none)
  | t :: ts =>
    match fl t with
    | Except.error e => ([], some e)
    | Except.ok labels0 =>
      let effs := AbstractGMailFilter.processThread labels0 imp t
      let rest := AbstractGMailFilter.run fl imp ts
      (effs ++ rest.1, rest.2)

/-! ## MailmanFilter (src/Code.js lines 120-173) -/

/-- Lower-case literal fragments of the Mailman patterns. -/
def listIdPre : Str := "list-id: ".data

def eclipseListsRoot : Str := "Eclipse Lists".data

def hubspotListsSeg : Str := "HubSpot Lists".data

def abuseToPre : Str := "x-report-abuse-to:".data

def hubspotLit : Str := "hubspot".data

def mailerPre : Str := "x-mailer:".data

def mailchimpLit : Str := "mailchimp".data

def jenkinsPre : Str := "x-jenkins-result:".data

def senderPre : Str := "sender:".data

def gcalLit : Str := "calendar-notification@google.com>".data

def fromPre : Str := "from:".data

def eclipseLit : Str := "eclipse".data

def foundationLit : Str := "-foundation".data

def orgGtLit : Str := ".org>".data

def eclipseOrgSuf : Str := ".eclipse.org".data

/-- The capture of `/^List-ID: [^<]*<([^>]*)\.eclipse\.org>/mi` (line 147):
on a line starting (case-insensitively) with `List-ID: `, the text between
the first `<` and the first following `>` must end with `.eclipse.org`;
the capture is that text with the suffix removed.  First fully matching
line wins. -/
def mailmanListId (lines : List Str) : Option Str :=
  firstLineMatch (fun line =>
    match stripPrefixCI listIdPre line with
    | some rest =>
      match splitFirst '<' rest with
      | some (_, aft) =>
        match splitFirst '>' aft with
        | some (inner, _) => stripSuffixCI eclipseOrgSuf inner
        | none => none
      | none => none
    | none => none) lines

/-- Truthiness of `/^X-Report-Abuse-To:(.*hubspot.*)/mi` (line 154): some
line has the prefix and contains `hubspot`; the capture then contains
`hubspot` so it is a non-empty, truthy string. -/
def isHubspot (lines : List Str) : Bool :=
  lines.any (fun line =>
    match stripPrefixCI abuseToPre line with
    | some rest => containsSubCI hubspotLit rest
    | none => false)

/-- Truthiness of `/^X-Mailer: *(.*mailchimp.*)/mi` (line 155). -/
def isMailChimp (lines : List Str) : Bool :=
  lines.any (fun line =>
    match stripPrefixCI mailerPre line with
    | some rest => containsSubCI mailchimpLit (rest.dropWhile (fun c => c = ' '))
    | none => false)

/-- Truthiness of `/^X-Jenkins-Result: *(.*)/mi` (line 156): the first
line with the prefix decides, and its capture (the rest of the line after
the spaces) is truthy exactly when non-empty. -/
def isJenkins (lines : List Str) : Bool :=
  match firstLineMatch (stripPrefixCI jenkinsPre) lines with
  | some rest => !(rest.dropWhile (fun c => c = ' ')).isEmpty
  | none => false

/-- Truthiness of `/^Sender:[^<]*<(calendar-notification@google.com)>.*/mi`
(line 157): some line starts with `Sender:` and right after its first `<`
stands `calendar-notification@google.com>`. -/
def isGCal (lines : List Str) : Bool :=
  lines.any (fun line =>
    match stripPrefixCI senderPre line with
    | some rest =>
      match splitFirst '<' rest with
      | some (_, aft) => startsWithCI gcalLit aft
      | none => false
    | none => false)

/-- The capture of `/^From: *[^<]*<([^@]*)@eclipse(-foundation)?\.org>/mi`
(line 164): on a `From:` line, take the text after the first `<`; the
capture is its part before the first `@`, and the part after the `@` must
read `eclipse`, optionally `-foundation`, then `.org>` (the optional group
backtracks: if `-foundation` is present but not followed by `.org>`, the
line fails, since without the group the next character is `-`, not `.`).
First fully matching line wins. -/
def fromEclipse (lines : List Str) : Option Str :=
  firstLineMatch (fun line =>
    match stripPrefixCI fromPre line with
    | some rest =>
      match splitFirst '<' rest with
      | some (_, aft) =>
        match splitFirst '@' aft with
        | some (loc, dom) =>
          match stripPrefixCI eclipseLit dom with
          | some d1 =>
            match stripPrefixCI foundationLit d1 with
            | some d2 => if startsWithCI orgGtLit d2 then some loc else none
            | none => if startsWithCI orgGtLit d1 then some loc else none
          | none => none
        | none => none
      | none => none
    | none => none) lines

/-- The bulk-relay fallback branch of `MailmanFilter.findLabels`
(lines 154-170), reached when the `List-ID` capture is null or empty:
if none of the four relay markers is truthy, warn and return null;
otherwise extract the eclipse.org / eclipse-foundation.org sender's local
part, warn and return null when that is null or empty after trimming, and
otherwise return the path `Eclipse Lists/HubSpot Lists/<fromName>`. -/
def MailmanFilter.fallback (m : GmailMessage) : Option Str × List Effect :=
  let lines := m.rawContent
  if isHubspot lines || isMailChimp lines || isJenkins lines || isGCal lines then
    match fromEclipse lines with
    | some loc =>
      if trimStr loc = [] then
        (none, [Effect.logWarn m.subject])
      else
        (some (eclipseListsRoot ++ slash ++ hubspotListsSeg ++ slash ++ trimStr loc),
          [])
    | none => (none, [Effect.logWarn m.subject])
  else
    (none, [Effect.logWarn m.subject])

/-- The per-message body of `MailmanFilter.findLabels` (lines 145-171), up
to the `_getOrCreateLabelHierarchy` call: the label path (or none), plus
the warnings logged.  The trimmed `List-ID` capture is truthy exactly when
present and non-empty. -/
def MailmanFilter.findLabelPath (m : GmailMessage) : Option Str × List Effect :=
  match mailmanListId m.rawContent with
  | some lid =>
    if trimStr lid = [] then MailmanFilter.fallback m
    else (some (eclipseListsRoot ++ slash ++ trimStr lid), [])
  | none => MailmanFilter.fallback m

/-- `MailmanFilter.findLabels` per thread, as the label full names the
hierarchy builder returns for each message's path. -/
def MailmanFilter.findLabels (t : GmailThread) : List (Option Str) :=
  t.messages.map (fun m => ((MailmanFilter.findLabelPath m).1).map hierarchyName)

/-! ## GitHubFilter (src/Code.js lines 180-229) -/

def ghRoot : Str := "GitHub".data

def unknownOrg : Str := "unknown_org".data

def unknownRepo : Str := "unknown_repo".data

/-- The capture of `/^List-ID: ([^<]*) <[^>]*>.*/mi` (line 209): on a
`List-ID: ` line, `[^<]*` runs up to the first `<` and backtracks one
character for the literal space, so the text before the first `<` must be
non-empty and end with a space; the capture drops that space.  A `>` must
follow the `<`.  First fully matching line wins. -/
def ghListId (lines : List Str) : Option Str :=
  firstLineMatch (fun line =>
    match stripPrefixCI listIdPre line with
    | some rest =>
      match splitFirst '<' rest with
      | some (bef, aft) =>
        if bef.getLast? = some ' ' ∧ (splitFirst '>' aft).isSome then
          some bef.dropLast
        else
          none
      | none => none
    | none => none) lines

/-- The per-message body of `GitHubFilter.findLabels` (lines 207-227), up
to the `_getOrCreateLabelHierarchy` call.  `listId[1].match('([^/]*)/.*')`
and `listId[1].match('[^/]*/(.*)')` both succeed exactly when the capture
contains a `/`, and then capture the parts before and after its first
occurrence; an empty part is falsy and replaced by the placeholder, a
non-empty part is trimmed and its underscores become spaces. -/
def GitHubFilter.findLabelPath (m : GmailMessage) : Option Str :=
  match ghListId m.rawContent with
  | none => none
  | some pre =>
    match splitFirst '/' pre with
    | none => none
    | some (bef, aft) =>
      let org := if bef = [] then unknownOrg else underscoreToSpace (trimStr bef)
      let repo := if aft = [] then unknownRepo else underscoreToSpace (trimStr aft)
      some (ghRoot ++ slash ++ org ++ slash ++ repo)

/-- `GitHubFilter.findLabels` per thread, as the label full names the
hierarchy builder returns for each message's path. -/
def GitHubFilter.findLabels (t : GmailThread) : List (Option Str) :=
  t.messages.map (fun m => (GitHubFilter.findLabelPath m).map hierarchyName)

/-! ## GitLabFilter (src/Code.js lines 236-272) -/

def gitlabPre : Str := "x-gitlab-project-path:".data

def gitlabRoot : Str := "gitlab.eclipse.org".data

/-- The capture of `/^X-GitLab-Project-Path: *(.*)/mi` (line 254): the
first line with the prefix decides; the capture is its remainder after
the spaces (possibly empty). -/
def gitlabProjectPath (lines : List Str) : Option Str :=
  (firstLineMatch (stripPrefixCI gitlabPre) lines).map
    (fun rest => rest.dropWhile (fun c => c = ' '))

/-- The per-message body of `GitLabFilter.findLabels` (lines 252-269), up
to the `_getOrCreateLabelHierarchy` call: when the header matched, fold
its slash-separated segments onto the root, appending `/` and the trimmed
segment only when `pathElement?.trim()?.length > 1`; otherwise the root
alone.  (This branch never returns null.) -/
def GitLabFilter.findLabelPath (m : GmailMessage) : Str :=
  match gitlabProjectPath m.rawContent with
  | some v =>
    (splitOnChar '/' v).foldl
      (fun acc el => if 1 < (trimStr el).length then acc ++ slash ++ trimStr el else acc)
      gitlabRoot
  | none => gitlabRoot

/-- `GitLabFilter.findLabels` per thread, as the label full names the
hierarchy builder returns for each message's path. -/
def GitLabFilter.findLabels (t : GmailThread) : List (Option Str) :=
  t.messages.map (fun m => some (hierarchyName (GitLabFilter.findLabelPath m)))

/-! ## BugzillaFilter (src/Code.js lines 278-369) -/

def bzReasonPre : Str := "x-bugzilla-reason: ".data

def bzUrlPre : Str := "x-bugzilla-url: ".data

def bzProductPre : Str := "x-bugzilla-product: ".data

def bzComponentPre : Str := "x-bugzilla-component: ".data

def utf8Lit : Str := "utf-8".data

def qLit : Str := "q".data

def noneLit : Str := "None".data

def bzUrlFailMsg : Str := "Bugzilla URL match failed for message ".data

/-- Consume one optional literal backslash: the regex fragment `\\?`
(an escaped backslash under a `?` quantifier) of the source's
quoted-printable patterns, lines 296, 354 and 355.  Note these patterns
use `\\?` where `\?` (an escaped question mark) was evidently intended:
as written they match an optional backslash, not a question mark. -/
def optBackslash : Str → Str
  | '\\' :: cs => cs
  | cs => cs

/-- Group 1 of `(=\\?UTF-8\\?Q\\?)?` as written in the source: `=`, an
optional backslash, `UTF-8` (case-insensitive), an optional backslash,
`Q`, an optional backslash.  Returns the remainder when the group
participates.  (The intended quoted-printable marker `=?UTF-8?Q?` never
matches this group because of the mis-escaped `\\?`.) -/
def qpMarker (rest : Str) : Option Str :=
  match rest with
  | '=' :: r0 =>
    match stripPrefixCI utf8Lit (optBackslash r0) with
    | some r2 =>
      match stripPrefixCI qLit (optBackslash r2) with
      | some r4 => some (optBackslash r4)
      | none => none
    | none => none
  | _ => none

/-- Matcher for `/^X-Bugzilla-(Reason|Product|Component): (...)?([^?\n]*)(\?=...)?/mi`
as written (lines 296, 354, 355), with `pre` the lower-cased literal head
of the pattern: the first line with that head decides; returns whether
group 1 participated and group 2, the run of characters other than `?`. -/
def bzHeaderMatch (pre : Str) (lines : List Str) : Option (Bool × Str) :=
  firstLineMatch (fun line =>
    (stripPrefixCI pre line).map (fun rest =>
      match qpMarker rest with
      | some r => (true, r.takeWhile (fun c => !(c = '?')))
      | none => (false, rest.takeWhile (fun c => !(c = '?'))))) lines

/-- `BugzillaFilter.isImportantMessage` (lines 295-301): true exactly when
the reason pattern matched and group 2, trimmed, differs from `None`. -/
def BugzillaFilter.isImportantMessage (m : GmailMessage) : Bool :=
  match bzHeaderMatch bzReasonPre m.rawContent with
  | some r => if trimStr r.2 = noneLit then false else true
  | none => false

/-- `BugzillaFilter._getRootLabel` (lines 308-323): first key of the table,
in insertion order, contained in the URL (case-sensitive `includes`). -/
def BugzillaFilter.rootLabels : List (Str × Str) :=
  [("bugs.eclipse.org".data, "Eclipse Bugs".data),
   ("polarsys.org".data, "Polarsys Bugs".data),
   ("locationtech.org".data, "LocationTech Bugs".data),
   ("foundation=2Eeclipse=2Eorg".data, "Foundation Bugs".data),
   ("foundation.eclipse.org".data, "Foundation Bugs".data)]

def BugzillaFilter.getRootLabel (url : Str) : Str :=
  match BugzillaFilter.rootLabels.find? (fun kv => containsSub kv.1 url) with
  | some kv => kv.2
  | none => "Unknown Bugzilla".data

/-- `BugzillaFilter._processMatch` (lines 330-339): when the pattern
matched, trim group 2 and decode underscores as spaces only when group 1
participated; otherwise null. -/
def BugzillaFilter.processMatch : Option (Bool × Str) → Option Str
  | some r =>
    if r.1 then some (underscoreToSpace (trimStr r.2)) else some (trimStr r.2)
  | none => none

/-- The per-message body of `BugzillaFilter.findLabels` (lines 347-367), up
to the `_getOrCreateLabelHierarchy` call: a missing `X-Bugzilla-URL`
header throws; otherwise the root comes from the URL, and the path gains
`/<product>/<component>` exactly when both decode to truthy (non-empty)
strings, with a warning and the root alone otherwise. -/
def BugzillaFilter.findLabelPath (m : GmailMessage) : Except Str (Str × List Effect) :=
  match firstLineMatch (stripPrefixCI bzUrlPre) m.rawContent with
  | none => Except.error (bzUrlFailMsg ++ m.subject)
  | some urlRest =>
    let root := BugzillaFilter.getRootLabel urlRest
    let product := BugzillaFilter.processMatch (bzHeaderMatch bzProductPre m.rawContent)
    let component := BugzillaFilter.processMatch (bzHeaderMatch bzComponentPre m.rawContent)
    match product, component with
    | some p, some c =>
      if p = [] ∨ c = [] then
        Except.ok (root, [Effect.logWarn m.subject])
      else
        Except.ok (root ++ slash ++ p ++ slash ++ c, [])
    | _, _ => Except.ok (root, [Effect.logWarn m.subject])

/-- `BugzillaFilter.findLabels` per thread: map the messages through
`findLabelPath` and the hierarchy builder; the first thrown error
propagates, as a thrown exception does out of `Array.prototype.map`. -/
def BugzillaFilter.findLabels (t : GmailThread) : Except Str (List (Option Str)) :=
  t.messages.mapM (fun m =>
    (BugzillaFilter.findLabelPath m).map (fun r => some (hierarchyName r.1)))

/-- `BugzillaFilter` instantiation of the batch loop `run` (lines 90-113). -/
def BugzillaFilter.run (threads : List GmailThread) : List Effect × Option Str :=
  AbstractGMailFilter.run BugzillaFilter.findLabels
    BugzillaFilter.isImportantMessage threads

/-! ## Spec-side definitions and concrete fixtures -/

def qpWrapLit : Str := "=?utf-8?q?".data

def qpEndLit : Str := "?=".data

/-- Follows the spec's words, not the source: the decoding the spec
prescribes for Bugzilla header values ("header value may carry the
quoted-printable UTF-8 wrapper — decode before comparing", with `_`
decoded to space only when the wrapped marker is present).  Used to
compare the code's behaviour with the specified one. -/
def specDecodeHeaderValue (v : Str) : Str :=
  match stripPrefixCI qpWrapLit (trimStr v) with
  | some rest =>
    match stripSuffixCI qpEndLit rest with
    | some inner => underscoreToSpace inner
    | none => trimStr v
  | none => trimStr v

/-- Join of the kept GitLab path segments: each contributes `/` plus its
trimmed text.  Used to state which segments the fold keeps. -/
def keptJoin : List Str → Str
  | [] => []
  | s :: rest => slash ++ trimStr s ++ keptJoin rest

/-- A Bugzilla message with no `X-Bugzilla-URL` header. -/
def msgNoUrl : GmailMessage :=
  ⟨[("X-Bugzilla-Product: Platform").data], ("s1").data⟩

/-- A well-formed Bugzilla message. -/
def msgBz : GmailMessage :=
  ⟨[("X-Bugzilla-URL: https://bugs.eclipse.org/bugs/").data,
    ("X-Bugzilla-Reason: AssignedTo").data,
    ("X-Bugzilla-Product: Platform").data,
    ("X-Bugzilla-Component: UI").data], ("s2").data⟩

/-- A thread whose only message lacks the Bugzilla URL header. -/
def thNoUrl : GmailThread := ⟨("t1").data, [msgNoUrl]⟩

/-- A thread whose only message is a well-formed Bugzilla notification. -/
def thBz : GmailThread := ⟨("t2").data, [msgBz]⟩

/-- The GitHub message of the spec's labeling scenario, exactly as the
spec quotes it: org/repo only inside the bracketed domain. -/
def msgGhSpec : GmailMessage :=
  ⟨[("List-ID: my_repo.my_org <my_org/my_repo.github.com>").data], ("c2").data⟩

/-- The same GitHub notification with org/repo before the bracket, the
form the extraction code parses. -/
def msgGhSwap : GmailMessage :=
  ⟨[("List-ID: my_org/my_repo <my_repo.my_org.github.com>").data], ("c2b").data⟩

/-- A GitHub message whose `List-ID` prefix has an empty repo part. -/
def msgGhEmptyRepo : GmailMessage :=
  ⟨[("List-ID: org/ <x.github.com>").data], ("c9").data⟩

/-- The raw value of a quoted-printable-wrapped Bugzilla reason. -/
def bzWrappedNone : Str := ("=?UTF-8?Q?None?=").data

/-- A Bugzilla message whose reason header carries the wrapped `None`. -/
def msgBzWrapped : GmailMessage :=
  ⟨[("X-Bugzilla-Reason: ").data ++ bzWrappedNone], ("c3").data⟩

/-- A GitLab message whose project path has two one-character segments. -/
def msgGlShort : GmailMessage :=
  ⟨[("X-GitLab-Project-Path: a/b").data], ("c4").data⟩

/-- A bulk-relay (HubSpot) message whose sender is not at eclipse.org nor
eclipse-foundation.org, and which has no List-ID header. -/
def msgHubOther : GmailMessage :=
  ⟨[("X-Report-Abuse-To: abuse@hubspot.com").data,
    ("From: Foo <foo@example.com>").data], ("c10").data⟩

/-! ## Helper lemmas about `_uniqLabels` -/

/-- A present name has a first index, and that index holds it. -/
theorem findIdx?_of_mem {name : Str} {L : List (Option Str)}
    (h : some name ∈ L) :
    ∃ j, List.findIdx? (fun l => decide (l = some name)) L = some j ∧
      L[j]? = some (some name) := by
  induction L with
  | nil => simp at h
  | cons x L ih =>
    by_cases hx : x = some name
    · exact ⟨0, by simp [List.findIdx?_cons, hx], by simp [hx]⟩
    · have hmem : some name ∈ L := by
        rcases List.mem_cons.mp h with h1 | h2
        · exact absurd h1.symm hx
        · exact h2
      obtain ⟨j, hfind, hget⟩ := ih hmem
      refine ⟨j + 1, ?_, by simpa using hget⟩
      simp [List.findIdx?_cons, hx, List.findIdx?_succ, hfind]

/-- Everything `uniqAux` emits occurs in the suffix it scans. -/
theorem of_mem_uniqAux {L : List (Option Str)} {name : Str} :
    ∀ {rest : List (Option Str)} {i : Nat},
      name ∈ uniqAux L i rest → some name ∈ rest := by
  intro rest
  induction rest with
  | nil => intro i h; simp [uniqAux] at h
  | cons r rest ih =>
    intro i h
    cases r with
    | none => exact List.mem_cons_of_mem _ (ih (by simpa [uniqAux] using h))
    | some nm =>
      simp only [uniqAux] at h
      by_cases hcond :
          List.findIdx? (fun l => decide (l = some nm)) L = some i
      · rw [if_pos hcond] at h
        rcases List.mem_cons.mp h with h1 | h2
        · subst h1; exact List.mem_cons_self _ _
        · exact List.mem_cons_of_mem _ (ih h2)
      · rw [if_neg hcond] at h
        exact List.mem_cons_of_mem _ (ih h)

/-- Every emission of `uniqAux` is justified by the first index of its
name in the original array, and that index lies in the scanned suffix. -/
theorem uniqAux_mem_findIdx {L : List (Option Str)} {name : Str} :
    ∀ {rest : List (Option Str)} {i : Nat},
      name ∈ uniqAux L i rest →
      ∃ k, i ≤ k ∧ List.findIdx? (fun l => decide (l = some name)) L = some k := by
  intro rest
  induction rest with
  | nil => intro i h; simp [uniqAux] at h
  | cons r rest ih =>
    intro i h
    cases r with
    | none =>
      obtain ⟨k, hk, hf⟩ := ih (by simpa [uniqAux] using h)
      exact ⟨k, by omega, hf⟩
    | some nm =>
      simp only [uniqAux] at h
      by_cases hcond :
          List.findIdx? (fun l => decide (l = some nm)) L = some i
      · rw [if_pos hcond] at h
        rcases List.mem_cons.mp h with h1 | h2
        · subst h1; exact ⟨i, Nat.le_refl _, hcond⟩
        · obtain ⟨k, hk, hf⟩ := ih h2
          exact ⟨k, by omega, hf⟩
      · rw [if_neg hcond] at h
        obtain ⟨k, hk, hf⟩ := ih h
        exact ⟨k, by omega, hf⟩

/-- The filtered array has no duplicate names. -/
theorem uniqAux_nodup (L : List (Option Str)) :
    ∀ (rest : List (Option Str)) (i : Nat), (uniqAux L i rest).Nodup := by
  intro rest
  induction rest with
  | nil => intro i; simp [uniqAux]
  | cons r rest ih =>
    intro i
    cases r with
    | none => simpa [uniqAux] using ih (i + 1)
    | some nm =>
      simp only [uniqAux]
      by_cases hcond :
          List.findIdx? (fun l => decide (l = some nm)) L = some i
      · rw [if_pos hcond]
        refine List.nodup_cons.mpr ⟨?_, ih (i + 1)⟩
        intro hmem
        obtain ⟨k, hk, hf⟩ := uniqAux_mem_findIdx hmem
        rw [hcond] at hf
        simp only [Option.some.injEq] at hf
        omega
      · rw [if_neg hcond]
        exact ih (i + 1)

/-- The element at the first index of a name is emitted. -/
theorem mem_uniqAux_of_getElem {L : List (Option Str)} {name : Str} {j : Nat}
    (hfind : List.findIdx? (fun l => decide (l = some name)) L = some j) :
    ∀ (rest : List (Option Str)) (i : Nat), i ≤ j →
      rest[j - i]? = some (some name) → name ∈ uniqAux L i rest := by
  intro rest
  induction rest with
  | nil => intro i _ hget; simp at hget
  | cons r rest ih =>
    intro i hij hget
    by_cases hji : j = i
    · subst hji
      simp only [Nat.sub_self, List.getElem?_cons_zero, Option.some.injEq] at hget
      subst hget
      simp [uniqAux, hfind]
    · have hij' : i + 1 ≤ j := by omega
      have hstep : j - i = (j - (i + 1)) + 1 := by omega
      rw [hstep, List.getElem?_cons_succ] at hget
      have htail := ih (i + 1) hij' hget
      cases r with
      | none => simpa [uniqAux] using htail
      | some nm =>
        simp only [uniqAux]
        by_cases hcond :
            List.findIdx? (fun l => decide (l = some nm)) L = some i
        · rw [if_pos hcond]; exact List.mem_cons_of_mem _ htail
        · rw [if_neg hcond]; exact htail

/-- Membership in the deduplicated array is presence in the original. -/
theorem mem_uniqLabels_iff {labels : List (Option Str)} {name : Str} :
    name ∈ AbstractGMailFilter.uniqLabels labels ↔ some name ∈ labels := by
  constructor
  · exact of_mem_uniqAux
  · intro h
    obtain ⟨j, hfind, hget⟩ := findIdx?_of_mem h
    exact mem_uniqAux_of_getElem hfind labels 0 (Nat.zero_le _) (by simpa using hget)

/-- The deduplicated array has no duplicate names. -/
theorem uniqLabels_nodup (labels : List (Option Str)) :
    (AbstractGMailFilter.uniqLabels labels).Nodup :=
  uniqAux_nodup labels labels 0

/-- In a duplicate-free list an element occurs once when present, never
otherwise (occurrence counted by an explicit equality predicate). -/
theorem countP_eq_of_nodup {α : Type} [DecidableEq α] {l : List α} (a : α)
    (hnd : l.Nodup) :
    l.countP (fun x => decide (x = a)) = if a ∈ l then 1 else 0 := by
  induction l with
  | nil => simp
  | cons x l ih =>
    rcases List.nodup_cons.mp hnd with ⟨hx, hl⟩
    by_cases hxa : x = a
    · subst hxa
      simp [List.countP_cons, ih hl, hx]
    · simp [List.countP_cons, ih hl, hxa, Ne.symm hxa]

/-- Each name present in the original array survives exactly once. -/
theorem count_uniqLabels (labels : List (Option Str)) (name : Str) :
    (AbstractGMailFilter.uniqLabels labels).countP (fun x => decide (x = name)) =
      if some name ∈ labels then 1 else 0 := by
  rw [countP_eq_of_nodup name (uniqLabels_nodup labels)]
  by_cases h : some name ∈ labels
  · rw [if_pos h, if_pos (mem_uniqLabels_iff.mpr h)]
  · rw [if_neg h, if_neg (fun hm => h (mem_uniqLabels_iff.mp hm))]

/-- When every message yielded null, deduplication yields the empty set. -/
theorem uniqLabels_eq_nil_of_all_none {labels : List (Option Str)}
    (h : ∀ l ∈ labels, l = none) :
    AbstractGMailFilter.uniqLabels labels = [] := by
  rw [List.eq_nil_iff_forall_not_mem]
  intro name hmem
  have h1 := mem_uniqLabels_iff.mp hmem
  have h2 := h _ h1
  simp at h2

/-! ## Helper lemmas about the label hierarchy builder -/

/-- The label returned by `_getOrCreateLabel` is the sanitized name. -/
theorem getOrCreateLabel_fst (store : List Str) (s : Str) :
    (AbstractGMailFilter.getOrCreateLabel store s).1 = sanitizeLabel s := by
  by_cases h : sanitizeLabel s ∈ store <;>
    simp [AbstractGMailFilter.getOrCreateLabel, h]

/-- `_getOrCreateLabel` never removes a label from the store. -/
theorem getOrCreateLabel_subset (store : List Str) (s : Str) :
    store ⊆ (AbstractGMailFilter.getOrCreateLabel store s).2 := by
  by_cases h : sanitizeLabel s ∈ store <;>
    simp [AbstractGMailFilter.getOrCreateLabel, h, List.subset_cons_self]

/-- The label returned by `_getOrCreateLabel` exists in the store after. -/
theorem getOrCreateLabel_mem (store : List Str) (s : Str) :
    (AbstractGMailFilter.getOrCreateLabel store s).1 ∈
      (AbstractGMailFilter.getOrCreateLabel store s).2 := by
  by_cases h : sanitizeLabel s ∈ store <;>
    simp [AbstractGMailFilter.getOrCreateLabel, h]

/-- When the name already exists, `_getOrCreateLabel` creates nothing. -/
theorem getOrCreateLabel_of_mem {store : List Str} {s : Str}
    (h : sanitizeLabel s ∈ store) :
    AbstractGMailFilter.getOrCreateLabel store s = (sanitizeLabel s, store) := by
  simp [AbstractGMailFilter.getOrCreateLabel, h]

/-- The label a `reduce` step returns does not depend on the store. -/
theorem hierStep_fst (o : Option Str) (st st' : List Str) (seg : Str) :
    (AbstractGMailFilter.hierStep (o, st) seg).1 =
      (AbstractGMailFilter.hierStep (o, st') seg).1 := by
  cases o <;> simp [AbstractGMailFilter.hierStep, getOrCreateLabel_fst]

/-- Every `reduce` step returns a label. -/
theorem hierStep_fst_some (o : Option Str) (st : List Str) (seg : Str) :
    ∃ n, (AbstractGMailFilter.hierStep (o, st) seg).1 = some n := by
  cases o <;> simp [AbstractGMailFilter.hierStep]

/-- A `reduce` step never removes a label from the store. -/
theorem hierStep_subset (o : Option Str) (st : List Str) (seg : Str) :
    st ⊆ (AbstractGMailFilter.hierStep (o, st) seg).2 := by
  cases o <;> simp [AbstractGMailFilter.hierStep, getOrCreateLabel_subset]

/-- The label a `reduce` step returns is in the store after the step. -/
theorem hierStep_mem {o : Option Str} {st : List Str} {seg n : Str}
    (h : (AbstractGMailFilter.hierStep (o, st) seg).1 = some n) :
    n ∈ (AbstractGMailFilter.hierStep (o, st) seg).2 := by
  cases o with
  | none =>
    have := getOrCreateLabel_mem st seg
    simp only [AbstractGMailFilter.hierStep, Option.some.injEq] at h ⊢
    rwa [h] at this
  | some cur =>
    have := getOrCreateLabel_mem st (cur ++ slash ++ seg)
    simp only [AbstractGMailFilter.hierStep, Option.some.injEq] at h ⊢
    rwa [h] at this

/-- A `reduce` step whose label already exists in a (possibly larger)
store returns that label and leaves the store unchanged. -/
theorem hierStep_of_mem {o : Option Str} {st st' : List Str} {seg n : Str}
    (h1 : (AbstractGMailFilter.hierStep (o, st) seg).1 = some n)
    (h2 : n ∈ st') :
    AbstractGMailFilter.hierStep (o, st') seg = (some n, st') := by
  cases o with
  | none =>
    have hn : sanitizeLabel seg = n := by
      simpa [AbstractGMailFilter.hierStep, getOrCreateLabel_fst] using h1
    have hmem : sanitizeLabel seg ∈ st' := hn ▸ h2
    simp [AbstractGMailFilter.hierStep, getOrCreateLabel_of_mem hmem, hn]
  | some cur =>
    have hn : sanitizeLabel (cur ++ (slash ++ seg)) = n := by
      simpa [AbstractGMailFilter.hierStep, getOrCreateLabel_fst] using h1
    have hmem : sanitizeLabel (cur ++ (slash ++ seg)) ∈ st' := hn ▸ h2
    simp [AbstractGMailFilter.hierStep, getOrCreateLabel_of_mem hmem, hn]

/-- The store is only ever grown along the whole `reduce`. -/
theorem hierFold_subset (segs : List Str) :
    ∀ (o : Option Str) (st : List Str),
      st ⊆ (segs.foldl AbstractGMailFilter.hierStep (o, st)).2 := by
  induction segs with
  | nil => intro o st; exact fun a ha => ha
  | cons seg segs ih =>
    intro o st
    simp only [List.foldl_cons]
    rcases hA : AbstractGMailFilter.hierStep (o, st) seg with ⟨o1, s1⟩
    have hsub : st ⊆ s1 := by
      have := hierStep_subset o st seg
      rw [hA] at this
      exact this
    exact hsub.trans (ih o1 s1)

/-- Re-running the whole `reduce` on the store it produced changes
nothing and returns the same label. -/
theorem hierFold_idem (segs : List Str) :
    ∀ (o : Option Str) (st : List Str),
      segs.foldl AbstractGMailFilter.hierStep
          (o, (segs.foldl AbstractGMailFilter.hierStep (o, st)).2) =
        segs.foldl AbstractGMailFilter.hierStep (o, st) := by
  induction segs with
  | nil => intro o st; rfl
  | cons seg segs ih =>
    intro o st
    simp only [List.foldl_cons]
    rcases hA : AbstractGMailFilter.hierStep (o, st) seg with ⟨o1, s1⟩
    rcases hF : segs.foldl AbstractGMailFilter.hierStep (o1, s1) with ⟨oF, sF⟩
    obtain ⟨n, hn⟩ := hierStep_fst_some o st seg
    have ho1 : o1 = some n := by rw [hA] at hn; exact hn
    have hn_s1 : n ∈ s1 := by
      have := hierStep_mem hn
      rw [hA] at this
      exact this
    have hs1_sF : s1 ⊆ sF := by
      have := hierFold_subset segs o1 s1
      rw [hF] at this
      exact this
    have hstep : AbstractGMailFilter.hierStep (o, sF) seg = (some n, sF) :=
      hierStep_of_mem hn (hs1_sF hn_s1)
    have hsnd : (segs.foldl AbstractGMailFilter.hierStep (o1, s1)).2 = sF := by
      rw [hF]
    dsimp only
    rw [hstep, ← ho1]
    have := ih o1 s1
    rw [hsnd] at this
    rw [this, hF]

/-! ## Claim theorems -/

/-- C8: resolving the same label path a second time through
`_getOrCreateLabelHierarchy` returns a label with the same full name and
leaves the label store exactly as the first call left it, so the second
call performs no creation side effects beyond those of the first (the
model's store realizes the assumption that `getUserLabelByName` finds a
label previously created under that name). -/
theorem C8_hierarchy_idempotent (labelName : Str) (store : List Str) :
    AbstractGMailFilter.getOrCreateLabelHierarchy
        (AbstractGMailFilter.getOrCreateLabelHierarchy store labelName).2
        labelName =
      AbstractGMailFilter.getOrCreateLabelHierarchy store labelName := by
  unfold AbstractGMailFilter.getOrCreateLabelHierarchy
  exact hierFold_idem (splitOnChar '/' labelName) none store

/-- C7: when every message of the thread yielded no label, the per-thread
body of `run` only logs an error naming the thread: no label is added,
no importance flag is set, and the thread is not moved. -/
theorem C7_empty_labels_no_mutation (labels0 : List (Option Str))
    (imp : GmailMessage → Bool) (t : GmailThread)
    (h : labels0.all (fun l => l.isNone) = true) :
    AbstractGMailFilter.processThread labels0 imp t = [Effect.logError t.id] := by
  have hall : ∀ l ∈ labels0, l = none := by
    intro l hl
    have := List.all_eq_true.mp h l hl
    simpa [Option.isNone_iff_eq_none] using this
  simp [AbstractGMailFilter.processThread, uniqLabels_eq_nil_of_all_none hall]

/-- Witness for C7 at a concrete all-null thread. -/
theorem C7_witness :
    ([none] : List (Option Str)).all (fun l => l.isNone) = true ∧
      AbstractGMailFilter.processThread [none] (fun _ => false)
          ⟨("t").data, []⟩ =
        [Effect.logError (("t").data)] :=
  ⟨by decide,
    C7_empty_labels_no_mutation [none] (fun _ => false) ⟨("t").data, []⟩ (by decide)⟩

/-- C5: for a thread whose deduplicated label set is non-empty (so the
per-thread body of `run` reaches the routing step), the thread is marked
important and moved to the inbox exactly when some message satisfies
`isImportantMessage`, and marked unimportant and archived otherwise. -/
theorem C5_importance_routing (labels0 : List (Option Str))
    (imp : GmailMessage → Bool) (t : GmailThread)
    (h : AbstractGMailFilter.uniqLabels labels0 ≠ []) :
    ((Effect.markImportant t.id ∈ AbstractGMailFilter.processThread labels0 imp t
        ↔ t.messages.any imp = true) ∧
     (Effect.moveToInbox t.id ∈ AbstractGMailFilter.processThread labels0 imp t
        ↔ t.messages.any imp = true) ∧
     (Effect.markUnimportant t.id ∈ AbstractGMailFilter.processThread labels0 imp t
        ↔ t.messages.any imp = false) ∧
     (Effect.moveToArchive t.id ∈ AbstractGMailFilter.processThread labels0 imp t
        ↔ t.messages.any imp = false)) := by
  simp only [AbstractGMailFilter.processThread]
  rw [if_neg h]
  cases himp : t.messages.any imp <;>
    simp [himp, List.mem_append, List.mem_map]

/-- Witness for C5 at a concrete one-label, important thread. -/
theorem C5_witness :
    AbstractGMailFilter.uniqLabels [some (("X").data)] ≠ [] ∧
      ((Effect.markImportant (("t").data) ∈
          AbstractGMailFilter.processThread [some (("X").data)] (fun _ => true)
            ⟨("t").data, [⟨[], ("m").data⟩]⟩
        ↔ (GmailThread.mk (("t").data) [⟨[], ("m").data⟩]).messages.any
            (fun _ => true) = true) ∧
       (Effect.moveToInbox (("t").data) ∈
          AbstractGMailFilter.processThread [some (("X").data)] (fun _ => true)
            ⟨("t").data, [⟨[], ("m").data⟩]⟩
        ↔ (GmailThread.mk (("t").data) [⟨[], ("m").data⟩]).messages.any
            (fun _ => true) = true) ∧
       (Effect.markUnimportant (("t").data) ∈
          AbstractGMailFilter.processThread [some (("X").data)] (fun _ => true)
            ⟨("t").data, [⟨[], ("m").data⟩]⟩
        ↔ (GmailThread.mk (("t").data) [⟨[], ("m").data⟩]).messages.any
            (fun _ => true) = false) ∧
       (Effect.moveToArchive (("t").data) ∈
          AbstractGMailFilter.processThread [some (("X").data)] (fun _ => true)
            ⟨("t").data, [⟨[], ("m").data⟩]⟩
        ↔ (GmailThread.mk (("t").data) [⟨[], ("m").data⟩]).messages.any
            (fun _ => true) = false)) :=
  ⟨by decide,
    C5_importance_routing [some (("X").data)] (fun _ => true)
      ⟨("t").data, [⟨[], ("m").data⟩]⟩ (by decide)⟩

/-- C6: the labels a thread receives are pairwise distinct by full name,
and a label path resolved by at least one message of the thread gets
exactly one `addLabel` call in the per-thread body of `run` (a path no
message resolved gets none). -/
theorem C6_label_dedup (labels0 : List (Option Str)) (imp : GmailMessage → Bool)
    (t : GmailThread) (name : Str) :
    (AbstractGMailFilter.uniqLabels labels0).Nodup ∧
      (AbstractGMailFilter.processThread labels0 imp t).countP
          (fun e => decide (e = Effect.addLabel t.id name)) =
        (if some name ∈ labels0 then 1 else 0) := by
  refine ⟨uniqLabels_nodup labels0, ?_⟩
  simp only [AbstractGMailFilter.processThread]
  by_cases hnil : AbstractGMailFilter.uniqLabels labels0 = []
  · rw [if_pos hnil]
    have hnotmem : ¬ some name ∈ labels0 := by
      intro hmem
      exact absurd (hnil ▸ mem_uniqLabels_iff.mpr hmem) (List.not_mem_nil name)
    rw [if_neg hnotmem]
    simp [List.countP_cons]
  · rw [if_neg hnil]
    rw [List.countP_append]
    have hmap :
        (List.map (Effect.addLabel t.id) (AbstractGMailFilter.uniqLabels labels0)).countP
            (fun e => decide (e = Effect.addLabel t.id name)) =
          (AbstractGMailFilter.uniqLabels labels0).countP
            (fun x => decide (x = name)) := by
      rw [List.countP_map]
      apply List.countP_congr
      intro x _
      simp [Function.comp, Effect.addLabel.injEq]
    have htail :
        (if t.messages.any imp then
            [Effect.markImportant t.id, Effect.moveToInbox t.id]
          else
            [Effect.markUnimportant t.id, Effect.moveToArchive t.id]).countP
          (fun e => decide (e = Effect.addLabel t.id name)) = 0 := by
      cases t.messages.any imp <;> simp [List.countP_cons]
    rw [hmap, htail, count_uniqLabels]
    omega

/-- The GitLab segment fold keeps exactly the segments whose trimmed
length exceeds one, appending `/` plus the trimmed segment for each. -/
theorem gitlabFold (segs : List Str) :
    ∀ acc : Str,
      segs.foldl
          (fun acc el =>
            if 1 < (trimStr el).length then acc ++ slash ++ trimStr el else acc)
          acc =
        acc ++ keptJoin (segs.filter (fun s => decide (1 < (trimStr s).length))) := by
  induction segs with
  | nil => intro acc; simp [keptJoin]
  | cons s segs ih =>
    intro acc
    simp only [List.foldl_cons, List.filter_cons]
    by_cases hs : 1 < (trimStr s).length
    · rw [if_pos hs, ih]
      simp [hs, keptJoin, List.append_assoc]
    · rw [if_neg hs, ih]
      simp [hs]

/-- C4 (amended): `GitLabFilter.findLabels` appends to the root exactly
the slash-separated segments of the header value whose trimmed length is
at least two — so, beyond empty and whitespace-only segments, it also
skips every one-character segment — each kept segment trimmed; a missing
header yields the root alone. -/
theorem C4_amended_segment_filter (m : GmailMessage) :
    GitLabFilter.findLabelPath m =
      (match gitlabProjectPath m.rawContent with
       | some v =>
         gitlabRoot ++
           keptJoin ((splitOnChar '/' v).filter
             (fun s => decide (1 < (trimStr s).length)))
       | none => gitlabRoot) := by
  unfold GitLabFilter.findLabelPath
  cases h : gitlabProjectPath m.rawContent with
  | some v => exact gitlabFold (splitOnChar '/' v) gitlabRoot
  | none => rfl

/-- Counterexample to C4 as stated: in `a/b` neither segment is empty or
whitespace-only, yet both are skipped (their trimmed length is one), so
the code yields the bare root instead of the claimed
`gitlab.eclipse.org/a/b`. -/
theorem C4_counterexample :
    GitLabFilter.findLabelPath msgGlShort = gitlabRoot ∧
      trimStr (("a").data) ≠ [] ∧
      trimStr (("b").data) ≠ [] ∧
      GitLabFilter.findLabelPath msgGlShort ≠
        gitlabRoot ++ slash ++ ("a").data ++ slash ++ ("b").data := by
  refine ⟨by decide, by decide, by decide, by decide⟩

/-- C3 evaluation: on a reason header wrapped as `=?UTF-8?Q?None?=`, whose
decoded value per the spec's own decoding is the literal `None`, the code
returns `true`: its mis-escaped pattern (`\\?` instead of `\?`) never
matches the wrapper, group 2 captures only `=`, and `=` differs from
`None`. -/
theorem C3_code_eval :
    BugzillaFilter.isImportantMessage msgBzWrapped = true ∧
      specDecodeHeaderValue bzWrappedNone = noneLit := by
  refine ⟨by decide, by decide⟩

/-- Counterexample to C2 as stated: on the spec's quoted header, whose
bracket-prefix `my_repo.my_org` contains no slash, the org/repo matches
fail and `GitHubFilter.findLabels` yields none, not the claimed label. -/
theorem C2_counterexample :
    GitHubFilter.findLabels ⟨("t").data, [msgGhSpec]⟩ = [none] ∧
      GitHubFilter.findLabelPath msgGhSpec = none := by
  refine ⟨by decide, by decide⟩

/-- C2 (amended): with the org/repo pair before the bracketed domain —
`List-ID: my_org/my_repo <my_repo.my_org.github.com>`, the layout the
extraction parses — `GitHubFilter.findLabels` produces the label path
`GitHub/my org/my repo`; on the spec's quoted header it produces none. -/
theorem C2_amended_github_listid_label :
    GitHubFilter.findLabels ⟨("t2c").data, [msgGhSwap]⟩ =
      [some (("GitHub/my org/my repo").data)] := by
  decide

/-- Counterexample to C1 as stated: `run` has no catch at the thread
boundary.  With a batch of two Bugzilla threads whose first message lacks
`X-Bugzilla-URL`, the exception thrown in `findLabels` escapes the batch
loop before any effect, although the second thread alone would be labeled,
marked important and moved to the inbox — its processing does not
continue. -/
theorem C1_counterexample :
    BugzillaFilter.run [thNoUrl, thBz] =
        ([], some (bzUrlFailMsg ++ ("s1").data)) ∧
      BugzillaFilter.run [thBz] =
        ([Effect.addLabel (("t2").data) (("Eclipse Bugs/Platform/UI").data),
          Effect.markImportant (("t2").data),
          Effect.moveToInbox (("t2").data)], none) := by
  refine ⟨by decide, by decide⟩

/-- C1 (amended): a fatal error raised while processing a thread is not
caught by the batch loop: it propagates out of `run`, and none of the
remaining threads of the batch is processed. -/
theorem C1_amended_error_aborts_batch
    (fl : GmailThread → Except Str (List (Option Str)))
    (imp : GmailMessage → Bool) (t : GmailThread) (ts : List GmailThread)
    (e : Str) (h : fl t = Except.error e) :
    AbstractGMailFilter.run fl imp (t :: ts) = ([], some e) := by
  unfold AbstractGMailFilter.run
  rw [h]

/-- Witness for the amended C1 at a concrete failing batch head. -/
theorem C1_witness :
    (fun _ : GmailThread =>
        (Except.error (("boom").data) : Except Str (List (Option Str)))) thBz =
      Except.error (("boom").data) ∧
    AbstractGMailFilter.run
        (fun _ => Except.error (("boom").data)) (fun _ => false) [thBz, thNoUrl] =
      ([], some (("boom").data)) :=
  ⟨rfl,
    C1_amended_error_aborts_batch (fun _ => Except.error (("boom").data))
      (fun _ => false) thBz [thNoUrl] (("boom").data) rfl⟩

/-- C9: a `List-ID` bracket-prefix containing a slash always yields a
label: the empty org or repo part around the slash (falsy in the code's
truthiness test) is replaced by the placeholder `unknown_org` or
`unknown_repo`, while a non-empty part is trimmed with underscores turned
to spaces. -/
theorem C9_github_placeholder (m : GmailMessage) (pre bef aft : Str)
    (h1 : ghListId m.rawContent = some pre)
    (h2 : splitFirst '/' pre = some (bef, aft))
    (_h3 : bef = [] ∨ aft = []) :
    GitHubFilter.findLabelPath m =
      some (ghRoot ++ slash ++
        (if bef = [] then unknownOrg else underscoreToSpace (trimStr bef)) ++
        slash ++
        (if aft = [] then unknownRepo else underscoreToSpace (trimStr aft))) := by
  unfold GitHubFilter.findLabelPath
  rw [h1]
  dsimp only
  rw [h2]

/-- Witness for C9 at a concrete empty-repo prefix `org/`. -/
theorem C9_witness :
    ghListId msgGhEmptyRepo.rawContent = some (("org/").data) ∧
      splitFirst '/' (("org/").data) = some ((("org").data), ([] : Str)) ∧
      GitHubFilter.findLabelPath msgGhEmptyRepo =
        some (("GitHub/org/unknown_repo").data) :=
  ⟨by decide, by decide, by
    rw [C9_github_placeholder msgGhEmptyRepo (("org/").data) (("org").data) []
      (by decide) (by decide) (Or.inr rfl)]
    decide⟩

/-- C10: a bulk-relay message with no `List-ID` match gets the fallback
label only when the `From` pattern — which requires an address at
`eclipse.org` or `eclipse-foundation.org` — captures a non-empty local
part; when that pattern fails (any other sender domain), the message
yields no label after a warning is logged. -/
theorem C10_mailman_fallback_domain (m : GmailMessage)
    (hmark : (isHubspot m.rawContent || isMailChimp m.rawContent ||
              isJenkins m.rawContent || isGCal m.rawContent) = true)
    (hlist : mailmanListId m.rawContent = none) :
    ((MailmanFilter.findLabelPath m).1.isSome = true →
       ∃ loc, fromEclipse m.rawContent = some loc ∧ trimStr loc ≠ []) ∧
    (fromEclipse m.rawContent = none →
       MailmanFilter.findLabelPath m = (none, [Effect.logWarn m.subject])) := by
  have hfb : MailmanFilter.findLabelPath m = MailmanFilter.fallback m := by
    unfold MailmanFilter.findLabelPath
    rw [hlist]
  rw [hfb]
  unfold MailmanFilter.fallback
  simp only [hmark, if_true]
  cases hfe : fromEclipse m.rawContent with
  | none =>
    dsimp only
    refine ⟨?_, fun _ => rfl⟩
    intro hs
    simp at hs
  | some loc =>
    dsimp only
    by_cases htrim : trimStr loc = []
    · rw [if_pos htrim]
      refine ⟨?_, ?_⟩
      · intro hs
        simp at hs
      · intro hnone
        cases hnone
    · rw [if_neg htrim]
      refine ⟨fun _ => ⟨loc, rfl, htrim⟩, ?_⟩
      intro hnone
      cases hnone

/-- Witness for C10 at a concrete HubSpot relay from a non-eclipse
sender. -/
theorem C10_witness :
    (isHubspot msgHubOther.rawContent || isMailChimp msgHubOther.rawContent ||
      isJenkins msgHubOther.rawContent || isGCal msgHubOther.rawContent) = true ∧
      mailmanListId msgHubOther.rawContent = none ∧
      fromEclipse msgHubOther.rawContent = none ∧
      MailmanFilter.findLabelPath msgHubOther =
        (none, [Effect.logWarn msgHubOther.subject]) :=
  ⟨by decide, by decide, by decide,
    (C10_mailman_fallback_domain msgHubOther (by decide) (by decide)).2 (by decide)⟩
